import Mathlib

/-! Verification development for the TecDAX press-release AI-sentiment
pipeline (`pressrelease_sentiment.py`).

The Python source is shallowly embedded: floating-point numbers are
modelled as exact rationals, Python strings as Lean `String`s, regular
expression searches as explicit leftmost scans over `List Char`, and the
external collaborators (VADER's compound scorer, `langdetect`, `nltk`
sentence tokenization, PDF extraction) as function parameters. -/

namespace PressRelease

/-! ## Character classes and string helpers -/

/-- The German umlaut letters occurring in the source's regex character
classes `[A-Za-zäöüÄÖÜ]`. -/
def umlauts : List Char := ['ä', 'ö', 'ü', 'Ä', 'Ö', 'Ü']

/-- Membership in the regex class `[A-Za-zäöüÄÖÜ]` used by the date
heuristics. -/
def isLetterDE (c : Char) : Bool := c.isAlpha || umlauts.contains c

/-- Membership in the regex class `\s` (ASCII whitespace). -/
def isSpaceC (c : Char) : Bool :=
  c = ' ' || c = '\t' || c = '\n' || c = '\r' || c = '\x0b' || c = '\x0c'

/-- Membership in the regex class `\w` used by `\b` word boundaries, for the
character repertoire the pipeline's German lexicon and sentences use
(ASCII alphanumerics, underscore, German letters). -/
def isWordChar (c : Char) : Bool :=
  c.isAlphanum || c = '_' || umlauts.contains c || c = 'ß'

/-- Lowercasing as Python `str.lower` acts on the pipeline's character
repertoire (ASCII plus the German umlauts). -/
def lowerChar (c : Char) : Char :=
  if c = 'Ä' then 'ä' else if c = 'Ö' then 'ö' else if c = 'Ü' then 'ü'
  else c.toLower

/-- Python `s.lower()`. -/
def lowerStr (s : String) : String := ⟨s.data.map lowerChar⟩

/-- Numeric value of a decimal digit character. -/
def dval (c : Char) : ℕ := c.toNat - 48

/-- Decimal digit character (inverse of `dval` on `0..9`). -/
def digitChar (n : ℕ) : Char :=
  ['0', '1', '2', '3', '4', '5', '6', '7', '8', '9'].getD n '0'

/-- Membership in the regex class `\d` (ASCII digits). -/
def isDigitB (c : Char) : Bool := 48 ≤ c.toNat && c.toNat ≤ 57

/-- Splits a character list into its maximal runs of word characters. -/
def wordsAux : List Char → List Char → List String
  | [], acc => if acc.isEmpty then [] else [⟨acc.reverse⟩]
  | c :: rest, acc =>
    if isWordChar c then wordsAux rest (c :: acc)
    else if acc.isEmpty then wordsAux rest []
    else ⟨acc.reverse⟩ :: wordsAux rest []

/-- The maximal word-character runs of a string, in order. -/
def wordsOf (s : String) : List String := wordsAux s.data []

/-- Python `re.search(r'\b' + re.escape(w) + r'\b', s) is not None` for a
word `w` consisting of word characters only: `w` occurs as a whole word
of `s`. -/
def containsWord (w s : String) : Bool := (wordsOf s).contains w

/-- Boolean list-prefix test. -/
def isPrefixB : List Char → List Char → Bool
  | [], _ => true
  | _ :: _, [] => false
  | a :: as, b :: bs => a == b && isPrefixB as bs

/-- Python `s.startswith(pre)` (code-point prefix). -/
def startsWithB (pre s : String) : Bool := isPrefixB pre.data s.data

/-- Python `s.endswith(suf)` (code-point suffix). -/
def endsWithB (suf s : String) : Bool := isPrefixB suf.data.reverse s.data.reverse

/-- Boolean substring test on character lists: Python's `k in s`. -/
def isInfixB : List Char → List Char → Bool
  | k, [] => k.isEmpty
  | k, c :: rest => isPrefixB k (c :: rest) || isInfixB k rest

/-- Python `k in s` for strings: `k` is a contiguous substring of `s`. -/
def substrB (k s : String) : Bool := isInfixB k.data s.data

/-- Python `str.strip()`: drop whitespace from both ends. -/
def stripStr (s : String) : String :=
  ⟨((s.data.dropWhile isSpaceC).reverse.dropWhile isSpaceC).reverse⟩

/-! ## Fixed configuration (source lines 39-66, 286-293) -/

/-- `AI_KEYWORDS_EN` of the source. -/
def AI_KEYWORDS_EN : List String :=
  ["artificial intelligence", "ai", "machine learning", "deep learning",
   "neural network", "nlp", "natural language processing", "computer vision",
   "generative ai", "foundation model", "large language model", "llm"]

/-- `AI_KEYWORDS_DE` of the source. -/
def AI_KEYWORDS_DE : List String :=
  ["künstliche intelligenz", "ki", "maschinelles lernen", "deep learning",
   "neuronales netz", "nlp", "natürliche sprachverarbeitung", "computer vision",
   "generative ki", "foundation model", "großes sprachmodell", "llm"]

/-- `MIN_SENTENCE_LEN` of the source. -/
def MIN_SENTENCE_LEN : ℕ := 20

/-- `SENTIMENT_THRESHOLDS["positive"]` of the source (`0.05`). -/
def thresholdPositive : ℚ := 1 / 20

/-- `SENTIMENT_THRESHOLDS["negative"]` of the source (`-0.05`). -/
def thresholdNegative : ℚ := -(1 / 20)

/-- `GERMAN_LEXICON` of the source, weights as exact rationals. -/
def GERMAN_LEXICON : List (String × ℚ) :=
  [("gut", 2), ("positiv", 3/2), ("erfolgreich", 3/2), ("stark", 1),
   ("stärken", 1), ("verbessert", 6/5),
   ("schwach", -1), ("problem", -3/2), ("kritisch", -3/2), ("fehler", -3/2),
   ("risiko", -3/2), ("negativ", -3/2), ("verlust", -3/2)]

/-- The negation alternation `\b(nicht|kein|keine|nie|ohne)\b` of
`score_sentence`. -/
def NEGATION_TOKENS : List String := ["nicht", "kein", "keine", "nie", "ohne"]

/-- `MONTHS_DE` of the source. -/
def MONTHS_DE : List (String × ℕ) :=
  [("januar", 1), ("februar", 2), ("märz", 3), ("maerz", 3), ("april", 4),
   ("mai", 5), ("juni", 6), ("juli", 7), ("august", 8), ("september", 9),
   ("oktober", 10), ("november", 11), ("dezember", 12)]

/-- `MONTHS_EN` of the source. -/
def MONTHS_EN : List (String × ℕ) :=
  [("january", 1), ("february", 2), ("march", 3), ("april", 4), ("may", 5),
   ("june", 6), ("july", 7), ("august", 8), ("september", 9), ("october", 10),
   ("november", 11), ("december", 12)]

/-- Python `MONTHS_EN.get(mon) or MONTHS_DE.get(mon)` (no month number is
falsy, so `or` is `orElse`). -/
def monthLookup (mon : String) : Option ℕ :=
  (MONTHS_EN.lookup mon).orElse (fun _ => MONTHS_DE.lookup mon)

/-! ## Sentiment scoring (source lines 295-329) -/

/-- The summation loop of `score_sentence`'s German path: for each lexicon
entry whose key occurs as a whole word of the lowercased sentence, add its
weight. -/
def rawGermanScore (s : String) : ℚ :=
  GERMAN_LEXICON.foldl (fun acc p => if containsWord p.1 s then acc + p.2 else acc) 0

/-- `score_sentence(lang, sentence)` of the source. The English path's VADER
`polarity_scores(...)["compound"]` is an external library call, passed in as
the `compound` parameter. The guard `lang and lang.startswith("de")`
coincides with `lang.startswith("de")` on every string, since `""` is the
only falsy string and `"".startswith("de")` is false. -/
def score_sentence (compound : String → ℚ) (lang sentence : String) : ℚ :=
  if startsWithB "de" lang then
    let s := lowerStr sentence
    let score := rawGermanScore s
    let score := if NEGATION_TOKENS.any (fun t => containsWord t s) then -score else score
    if 0 < score then min (score / 3) 1
    else if score < 0 then max (score / 3) (-1)
    else 0
  else compound sentence

/-- `label_from_score(score)` of the source: returns the pair
`(label, score)`. -/
def label_from_score (score : ℚ) : String × ℚ :=
  if thresholdPositive ≤ score then ("positive", score)
  else if score ≤ thresholdNegative then ("negative", score)
  else ("neutral", score)

/-- The release-level aggregate record built by `aggregate_release`. -/
structure ReleaseAggregate where
  label : String
  score : ℚ
  confidence : ℚ
  count : ℕ
deriving Repr, DecidableEq

/-- `aggregate_release(scores)` of the source. -/
def aggregate_release (scores : List ℚ) : ReleaseAggregate :=
  if scores.isEmpty then ⟨"neutral", 0, 0, 0⟩
  else
    let avg := scores.sum / (scores.length : ℚ)
    let non_neutral := (scores.filter (fun s => decide ((1 : ℚ)/20 < |s|))).length
    let conf := (non_neutral : ℚ) / (scores.length : ℚ)
    ⟨(label_from_score avg).1, avg, conf, scores.length⟩

/-! ## AI relevance filtering (source lines 267-284) -/

/-- `sentence_mentions_ai(sentence, lang)` of the source. As in
`score_sentence`, `lang and lang.startswith("de")` is `lang.startswith("de")`
on strings. Keyword matching is Python's substring `in`. -/
def sentence_mentions_ai (sentence lang : String) : Bool :=
  let s := lowerStr sentence
  let keys := if startsWithB "de" lang then AI_KEYWORDS_DE else AI_KEYWORDS_EN
  keys.any (fun k => substrB k s)

/-- `extract_ai_sentences(text)` of the source, with the external language
detector and sentence splitter as parameters: keep sentences of length at
least `MIN_SENTENCE_LEN` that mention AI, paired with the release-level
language and stripped. -/
def extract_ai_sentences (detect : String → String)
    (splitSents : String → String → List String) (text : String) :
    List (String × String) :=
  let lang := detect text
  let sents := splitSents text lang
  (sents.filter (fun s => !decide (s.length < MIN_SENTENCE_LEN) &&
    sentence_mentions_ai s lang)).map (fun s => (lang, stripStr s))

/-! ## Date heuristics (source lines 60-122) -/

/-- A calendar date as the pipeline uses `datetime`: only year, month and
day are ever read. -/
structure SimpleDate where
  year : ℕ
  month : ℕ
  day : ℕ
deriving Repr, DecidableEq

/-- Leap-year rule of the proleptic Gregorian calendar (as `datetime`
validates dates). -/
def isLeap (y : ℕ) : Bool := y % 4 = 0 && (y % 100 ≠ 0 || y % 400 = 0)

/-- Days in a month, as `datetime` validates the day component. -/
def daysInMonth (y m : ℕ) : ℕ :=
  if m = 2 then (if isLeap y then 29 else 28)
  else if m = 4 || m = 6 || m = 9 || m = 11 then 30
  else 31

/-- Leftmost-match regex search: try the pattern matcher `f` at every
suffix, left to right, and return the first success. This is the semantics
of Python's `re.search` for the source's patterns, whose matchers are
deterministic at a fixed start position. -/
def scanFind {α : Type} (f : List Char → Option α) : List Char → Option α
  | [] => f []
  | c :: rest =>
    match f (c :: rest) with
    | some r => some r
    | none => scanFind f rest

/-- Matcher for `20\d{2}` at the start of a suffix; returns the four digit
characters of the match. -/
def yearAt : List Char → Option (List Char)
  | c1 :: c2 :: a :: b :: _ =>
    if c1 = '2' && c2 = '0' && isDigitB a && isDigitB b then some [c1, c2, a, b]
    else none
  | _ => none

/-- Numeric value of a list of digit characters. -/
def digitsVal (ds : List Char) : ℕ := ds.foldl (fun a c => 10 * a + dval c) 0

/-- Matcher for `([A-Za-zäöüÄÖÜ]+)\s+` followed by the year digits `yds`,
at the start of a suffix; returns the (maximal) letter run. Greedy matching
is deterministic here because the letter, whitespace and digit classes are
disjoint. -/
def m2At (yds : List Char) (cs : List Char) : Option (List Char) :=
  let run := cs.takeWhile isLetterDE
  let rest := cs.dropWhile isLetterDE
  if run.isEmpty then none
  else
    let ws := rest.takeWhile isSpaceC
    let rest2 := rest.dropWhile isSpaceC
    if ws.isEmpty then none
    else if isPrefixB yds rest2 then some run else none

/-- Membership in the regex class `[.\-\/]`. -/
def sepC (c : Char) : Bool := c = '.' || c = '-' || c = '/'

/-- Matcher for `20\d{2}[.\-\/](\d{1,2})` at the start of a suffix; returns
the value of the 1-2 digit (greedy) month group. -/
def m3At : List Char → Option ℕ
  | c1 :: c2 :: a :: b :: s :: rest =>
    if c1 = '2' && c2 = '0' && isDigitB a && isDigitB b && sepC s then
      match rest with
      | d1 :: d2 :: _ =>
        if isDigitB d1 then
          some (if isDigitB d2 then 10 * dval d1 + dval d2 else dval d1)
        else none
      | [d1] => if isDigitB d1 then some (dval d1) else none
      | [] => none
    else none
  | _ => none

/-- The month-name stage of `_find_date_in_text`: the leftmost
`([A-Za-zäöüÄÖÜ]+)\\s+` + (year digits) match, with its letter run looked
up (lowercased) in the month tables. -/
def monthFromName (yds cs : List Char) : Option ℕ :=
  match scanFind (m2At yds) cs with
  | some run => monthLookup (lowerStr ⟨run⟩)
  | none => none

/-- `_find_date_in_text(text)` of the source: take the year of the first
`20\d\d` match; for the month, first use the month-name stage, then the
leftmost `20\d{2}[.\-\/](\d{1,2})` match (falling back to month 1 when
`datetime` rejects the month value), else month 1. The guard
`if not text` agrees with the `20\d\d` search failing on the empty
string. -/
def find_date_in_text (text : String) : Option SimpleDate :=
  let cs := text.data
  match scanFind yearAt cs with
  | none => none
  | some yds =>
    match monthFromName yds cs with
    | some m => some ⟨digitsVal yds, m, 1⟩
    | none =>
      match scanFind m3At cs with
      | some mo =>
        if 1 ≤ mo && mo ≤ 12 then some ⟨digitsVal yds, mo, 1⟩
        else some ⟨digitsVal yds, 1, 1⟩
      | none => some ⟨digitsVal yds, 1, 1⟩

/-- Modelled from the spec: Python's `datetime.fromisoformat` (an external
standard-library call) on its strict date core `YYYY-MM-DD`, the "strict
ISO 8601 parse" of the spec; fails on anything else. -/
def fromisoformat (s : String) : Option SimpleDate :=
  match s.data with
  | [y1, y2, y3, y4, '-', n1, n2, '-', e1, e2] =>
    if ([y1, y2, y3, y4, n1, n2, e1, e2].all isDigitB) then
      let y := digitsVal [y1, y2, y3, y4]
      let mo := 10 * dval n1 + dval n2
      let d := 10 * dval e1 + dval e2
      if 1 ≤ y && y ≤ 9999 && 1 ≤ mo && mo ≤ 12 && 1 ≤ d && d ≤ daysInMonth y mo
      then some ⟨y, mo, d⟩ else none
    else none
  | _ => none

/-- Day group `(\d{1,2})` (greedy, no trailing constraint) at the start of
a suffix. -/
def dayAt : List Char → Option ℕ
  | d1 :: d2 :: _ =>
    if isDigitB d1 then
      some (if isDigitB d2 then 10 * dval d1 + dval d2 else dval d1)
    else none
  | [d1] => if isDigitB d1 then some (dval d1) else none
  | [] => none

/-- Two-digit branch of the month group of pattern
`(20\d{2})[.\-\/](\d{1,2})[.\-\/](\d{1,2})`, after the year and first
separator are consumed. -/
def pbTwo (y : ℕ) : List Char → Option (ℕ × ℕ × ℕ)
  | n1 :: n2 :: s2 :: rest =>
    if isDigitB n1 && isDigitB n2 && sepC s2 then
      (dayAt rest).map (fun d => (y, 10 * dval n1 + dval n2, d))
    else none
  | _ => none

/-- One-digit (backtracked) branch of the month group of the same
pattern. -/
def pbOne (y : ℕ) : List Char → Option (ℕ × ℕ × ℕ)
  | n1 :: s2 :: rest =>
    if isDigitB n1 && sepC s2 then
      (dayAt rest).map (fun d => (y, dval n1, d))
    else none
  | _ => none

/-- Matcher for `(?P<y>20\d{2})[.\-\/](?P<m>\d{1,2})[.\-\/](?P<d>\d{1,2})`
at the start of a suffix (the greedy two-digit month is tried before the
backtracked one-digit month). -/
def pbAt : List Char → Option (ℕ × ℕ × ℕ)
  | c1 :: c2 :: a :: b :: s1 :: rest =>
    if c1 = '2' && c2 = '0' && isDigitB a && isDigitB b && sepC s1 then
      let y := 2000 + 10 * dval a + dval b
      match pbTwo y rest with
      | some r => some r
      | none => pbOne y rest
    else none
  | _ => none

/-- Tail of pattern `(?P<d>\d{1,2})\s+(?P<mon>[A-Za-zäöüÄÖÜ]+)\s+(?P<y>20\d{2})`
after the day group: whitespace, letter run, whitespace, year. Returns the
letter run and the year value. -/
def pcTail (cs : List Char) : Option (List Char × ℕ) :=
  let ws1 := cs.takeWhile isSpaceC
  let r1 := cs.dropWhile isSpaceC
  if ws1.isEmpty then none
  else
    let run := r1.takeWhile isLetterDE
    let r2 := r1.dropWhile isLetterDE
    if run.isEmpty then none
    else
      let ws2 := r2.takeWhile isSpaceC
      let r3 := r2.dropWhile isSpaceC
      if ws2.isEmpty then none
      else
        match yearAt r3 with
        | some yds => some (run, digitsVal yds)
        | none => none

/-- Matcher for `(?P<d>\d{1,2})\s+(?P<mon>[A-Za-zäöüÄÖÜ]+)\s+(?P<y>20\d{2})`
at the start of a suffix: returns (day, month letter run, year). At a fixed
start the two branches of the day group are mutually exclusive, because a
digit can follow the one-digit day only if the two-digit branch applies. -/
def pcAt : List Char → Option (ℕ × List Char × ℕ)
  | d1 :: rest =>
    if isDigitB d1 then
      match rest with
      | d2 :: rest2 =>
        if isDigitB d2 then (pcTail rest2).map (fun p => (10 * dval d1 + dval d2, p.1, p.2))
        else (pcTail rest).map (fun p => (dval d1, p.1, p.2))
      | [] => none
    else none
  | [] => none

/-- Day group `(\d{1,2})` immediately followed by a comma, with
backtracking, for pattern `(?P<mon>[A-Za-zäöüÄÖÜ]+)\s+(?P<d>\d{1,2}),\s*(?P<y>20\d{2})`.
Returns the day value and the rest after the comma. -/
def pdDay : List Char → Option (ℕ × List Char)
  | d1 :: rest =>
    if isDigitB d1 then
      match rest with
      | d2 :: rest2 =>
        if isDigitB d2 then
          match rest2 with
          | ',' :: rest3 => some (10 * dval d1 + dval d2, rest3)
          | _ => none
        else
          match rest with
          | ',' :: rest3 => some (dval d1, rest3)
          | _ => none
      | [] => none
    else none
  | [] => none

/-- Matcher for `(?P<mon>[A-Za-zäöüÄÖÜ]+)\s+(?P<d>\d{1,2}),\s*(?P<y>20\d{2})`
at the start of a suffix: returns (month letter run, day, year). -/
def pdAt (cs : List Char) : Option (List Char × ℕ × ℕ) :=
  let run := cs.takeWhile isLetterDE
  let r1 := cs.dropWhile isLetterDE
  if run.isEmpty then none
  else
    let ws := r1.takeWhile isSpaceC
    let r2 := r1.dropWhile isSpaceC
    if ws.isEmpty then none
    else
      match pdDay r2 with
      | some (d, r3) =>
        let r4 := r3.dropWhile isSpaceC
        match yearAt r4 with
        | some yds => some (run, d, digitsVal yds)
        | none => none
      | none => none

/-- Pattern (b) of `_parse_date_string`: `YYYY[sep]MM[sep]DD`, with the
`datetime` validity check of the matched groups (an invalid date makes the
attempt fail and the parser move on). -/
def tryPatternB (cs : List Char) : Option SimpleDate :=
  match scanFind pbAt cs with
  | some (y, mo, d) =>
    if 1 ≤ mo && mo ≤ 12 && 1 ≤ d && d ≤ daysInMonth y mo
    then some ⟨y, mo, d⟩ else none
  | none => none

/-- Pattern (c) of `_parse_date_string`: `D Month YYYY` with an English or
German month name, case-insensitively, validated by `datetime`. -/
def tryPatternC (cs : List Char) : Option SimpleDate :=
  match scanFind pcAt cs with
  | some (d, run, y) =>
    match monthLookup (lowerStr ⟨run⟩) with
    | some mo => if 1 ≤ d && d ≤ daysInMonth y mo then some ⟨y, mo, d⟩ else none
    | none => none
  | none => none

/-- Pattern (d) of `_parse_date_string`: `Month D, YYYY` with an English or
German month name, case-insensitively, validated by `datetime`. -/
def tryPatternD (cs : List Char) : Option SimpleDate :=
  match scanFind pdAt cs with
  | some (run, d, y) =>
    match monthLookup (lowerStr ⟨run⟩) with
    | some mo => if 1 ≤ d && d ≤ daysInMonth y mo then some ⟨y, mo, d⟩ else none
    | none => none
  | none => none

/-- `_parse_date_string(s)` of the source: strip, then try strict ISO 8601,
then patterns (b), (c), (d) in order; the first success wins, otherwise
`None`. (The `not isinstance(s, str)` guard is outside the model; `not s`
agrees with every pattern failing on the empty string.) -/
def parse_date_string (s : String) : Option SimpleDate :=
  let t := stripStr s
  match fromisoformat t with
  | some d => some d
  | none =>
    match tryPatternB t.data with
    | some d => some d
    | none =>
      match tryPatternC t.data with
      | some d => some d
      | none => tryPatternD t.data

/-! ## Pipeline (source lines 334-405) -/

/-- One release record as the pipeline consumes it: `text = none` models a
missing `"text"` key. -/
structure ReleaseItem where
  url : String
  title : String
  text : Option String
  publish_date : Option SimpleDate
  company : String
  isLocal : Bool

/-- `ensure_text(item)` of the source, with the external
`pdfminer.extract_text` as a parameter (`none` models the extractor
raising). The Python condition `urlpdf or (local and urlpdf)` is `urlpdf`. -/
def ensure_text (pdfExtract : String → Option String) (item : ReleaseItem) :
    ReleaseItem :=
  if (item.text.getD "") ≠ "" then item
  else if endsWithB ".pdf" (lowerStr item.url) then
    match pdfExtract item.url with
    | some txt => { item with text := some txt }
    | none => { item with text := some "" }
  else { item with text := some "" }

/-- `extract_year_month(publish_date, text, title, url)` of the source;
`none` models the `("", "")` return. -/
def extract_year_month (publish_date : Option SimpleDate)
    (text title url : String) : Option (ℕ × ℕ) :=
  match publish_date with
  | some d => some (d.year, d.month)
  | none =>
    match find_date_in_text text with
    | some d => some (d.year, d.month)
    | none =>
      match find_date_in_text title with
      | some d => some (d.year, d.month)
      | none =>
        match find_date_in_text url with
        | some d => some (d.year, d.month)
        | none => none

/-- The per-label example buckets (`examples` dict of `run_pipeline`). -/
structure Examples where
  positive : List String
  neutral : List String
  negative : List String
deriving Repr, DecidableEq

/-- The body `if len(examples[lbl]) < 3: examples[lbl].append(sent)` of
`run_pipeline`'s sentence loop; `lbl` is always one of the three labels. -/
def addExample (e : Examples) (lbl : String) (sent : String) : Examples :=
  if lbl = "positive" then
    if e.positive.length < 3 then { e with positive := e.positive ++ [sent] } else e
  else if lbl = "neutral" then
    if e.neutral.length < 3 then { e with neutral := e.neutral ++ [sent] } else e
  else if lbl = "negative" then
    if e.negative.length < 3 then { e with negative := e.negative ++ [sent] } else e
  else e

/-- One step of `run_pipeline`'s sentence loop: score the sentence, record
the score, and append the sentence to its own label's example bucket while
that bucket holds fewer than 3 entries. -/
def sentStep (compound : String → ℚ) (acc : List ℚ × Examples)
    (p : String × String) : List ℚ × Examples :=
  let sc := score_sentence compound p.1 p.2
  let lbl := (label_from_score sc).1
  (acc.1 ++ [sc], addExample acc.2 lbl p.2)

/-- The whole sentence loop of `run_pipeline` over a release's AI
sentences. -/
def sentLoop (compound : String → ℚ) (ai_sents : List (String × String)) :
    List ℚ × Examples :=
  ai_sents.foldl (sentStep compound) ([], ⟨[], [], []⟩)

/-- Python `round(q, n)` on exact rationals: round half to even at `n`
decimal places. -/
def round_half_even (q : ℚ) : ℤ :=
  if q - ⌊q⌋ < 1/2 then ⌊q⌋
  else if (1:ℚ)/2 < q - ⌊q⌋ then ⌊q⌋ + 1
  else if Even ⌊q⌋ then ⌊q⌋ else ⌊q⌋ + 1

/-- Rounding to `n` decimal places, as `round(x, n)` is applied to the
aggregate score and confidence. -/
def round_to (n : ℕ) (q : ℚ) : ℚ := (round_half_even (q * 10 ^ n) : ℚ) / 10 ^ n

/-- One CSV row built by `run_pipeline`; `date = none` models the empty
`year`/`month` cells. -/
structure OutputRow where
  company : String
  title : String
  url : String
  date : Option (ℕ × ℕ)
  label : String
  score : ℚ
  confidence : ℚ
  ai_sentence_count : ℕ
  example_positive : String
  example_neutral : String
  example_negative : String

/-- The per-release body of `run_pipeline`'s loop, after `ensure_text`:
skip (return `none`) when the text is missing or shorter than 50
characters, else build the row. -/
def processRelease (compound : String → ℚ) (detect : String → String)
    (splitSents : String → String → List String) (r : ReleaseItem) :
    Option OutputRow :=
  let text := r.text.getD ""
  if text = "" || text.length < 50 then none
  else
    let ai_sents := extract_ai_sentences detect splitSents text
    let res := sentLoop compound ai_sents
    let agg := aggregate_release res.1
    let ym := extract_year_month r.publish_date text r.title r.url
    some {
      company := r.company, title := r.title, url := r.url, date := ym,
      label := agg.label, score := round_to 4 agg.score,
      confidence := round_to 3 agg.confidence,
      ai_sentence_count := agg.count,
      example_positive := String.intercalate " | " res.2.positive,
      example_neutral := String.intercalate " | " res.2.neutral,
      example_negative := String.intercalate " | " res.2.negative }

/-- `run_pipeline()` of the source, restricted to its core transformation:
the list of rows produced from the collected releases (CSV writing and
logging are external). -/
def run_pipeline (compound : String → ℚ) (detect : String → String)
    (splitSents : String → String → List String)
    (pdfExtract : String → Option String) (releases : List ReleaseItem) :
    List OutputRow :=
  releases.filterMap
    (fun r0 => processRelease compound detect splitSents (ensure_text pdfExtract r0))

/-! ## Helper lemmas -/

/-- Bounds of the German normalization step. -/
lemma normalize_bounds (x : ℚ) :
    -1 ≤ (if 0 < x then min (x / 3) 1 else if x < 0 then max (x / 3) (-1) else 0) ∧
    (if 0 < x then min (x / 3) 1 else if x < 0 then max (x / 3) (-1) else 0) ≤ 1 := by
  split_ifs with h1 h2
  · exact ⟨le_min (by linarith) (by norm_num), min_le_right _ _⟩
  · exact ⟨le_max_right _ _, max_le (by linarith) (by norm_num)⟩
  · norm_num

/-! ## C1: aggregate_release -/

/-- C1: for every list of per-sentence scores, `aggregate_release` returns
the neutral zero record on the empty list, and otherwise the mean score,
the fraction of scores of absolute value strictly above 0.05 as
confidence, the label of the mean, and the list length as count; the
confidence always lies in [0, 1]. -/
theorem C1_aggregate_release_spec : ∀ scores : List ℚ,
    (scores = [] → aggregate_release scores = ⟨"neutral", 0, 0, 0⟩) ∧
    (scores ≠ [] →
      (aggregate_release scores).score = scores.sum / (scores.length : ℚ) ∧
      (aggregate_release scores).confidence =
        ((scores.countP (fun s => decide ((1 : ℚ)/20 < |s|))) : ℚ) / (scores.length : ℚ) ∧
      (aggregate_release scores).label =
        (label_from_score (scores.sum / (scores.length : ℚ))).1 ∧
      (aggregate_release scores).count = scores.length) ∧
    0 ≤ (aggregate_release scores).confidence ∧
    (aggregate_release scores).confidence ≤ 1 := by
  intro scores
  by_cases h : scores = []
  · subst h
    refine ⟨fun _ => rfl, fun h' => absurd rfl h', by norm_num [aggregate_release]⟩
  · have hne : scores.isEmpty = false := by
      simpa [List.isEmpty_iff] using h
    have hlen : (0 : ℚ) < (scores.length : ℚ) := by
      exact_mod_cast List.length_pos.mpr h
    constructor
    · intro h'; exact absurd h' h
    constructor
    · intro _
      refine ⟨by simp [aggregate_release, hne], ?_, by simp [aggregate_release, hne], by simp [aggregate_release, hne]⟩
      simp [aggregate_release, hne, List.countP_eq_length_filter]
    · constructor
      · simp only [aggregate_release, hne, Bool.false_eq_true, if_false]
        positivity
      · simp only [aggregate_release, hne, Bool.false_eq_true, if_false]
        rw [div_le_one hlen]
        exact_mod_cast List.length_filter_le _ scores

/-! ## C6: label_from_score -/

/-- C6: `label_from_score` labels a score positive exactly when it is at
least 0.05, negative when it is at most -0.05, and neutral strictly in
between; the boundary values 0.05, -0.05 and 0.0 are labeled positive,
negative and neutral respectively, and `aggregate_release` applies the
same rule to the mean score. -/
theorem C6_label_from_score_spec : ∀ q : ℚ,
    ((thresholdPositive ≤ q → (label_from_score q).1 = "positive") ∧
     (q ≤ thresholdNegative → (label_from_score q).1 = "negative") ∧
     (thresholdNegative < q → q < thresholdPositive →
       (label_from_score q).1 = "neutral")) ∧
    (label_from_score (1/20)).1 = "positive" ∧
    (label_from_score (-(1/20))).1 = "negative" ∧
    (label_from_score 0).1 = "neutral" ∧
    ∀ scores : List ℚ, scores ≠ [] →
      (aggregate_release scores).label =
        (label_from_score (scores.sum / (scores.length : ℚ))).1 := by
  intro q
  refine ⟨⟨?_, ?_, ?_⟩, by norm_num [label_from_score, thresholdPositive, thresholdNegative], by norm_num [label_from_score, thresholdPositive, thresholdNegative], by norm_num [label_from_score, thresholdPositive, thresholdNegative], ?_⟩
  · intro h; simp [label_from_score, h]
  · intro h
    have h2 : ¬ thresholdPositive ≤ q := by
      simp only [thresholdPositive, thresholdNegative] at *
      intro hc; linarith
    simp [label_from_score, h, h2]
  · intro h1 h2
    have h3 : ¬ thresholdPositive ≤ q := by linarith
    have h4 : ¬ q ≤ thresholdNegative := by linarith
    simp [label_from_score, h3, h4]
  · intro scores hne
    have hne' : scores.isEmpty = false := by simpa [List.isEmpty_iff] using hne
    simp [aggregate_release, hne']

/-! ## C5: score_sentence bounds -/

/-- C5: for every sentence and language tag, `score_sentence` returns a
value in [-1, 1], assuming the external English compound scorer keeps its
documented [-1, 1] contract; on the German path this is forced by the
normalization of the raw lexicon sum. -/
theorem C5_score_sentence_bounds (compound : String → ℚ)
    (hc : ∀ s, -1 ≤ compound s ∧ compound s ≤ 1) (lang sentence : String) :
    -1 ≤ score_sentence compound lang sentence ∧
    score_sentence compound lang sentence ≤ 1 := by
  by_cases hde : startsWithB "de" lang
  · simp only [score_sentence, hde, if_true]
    exact normalize_bounds _
  · simp only [score_sentence, hde, if_false, Bool.false_eq_true]
    exact hc sentence

/-- Witness for C5 at a concrete scorer, language and sentence. -/
theorem C5_score_sentence_bounds_witness :
    -1 ≤ score_sentence (fun _ => 0) "de" "das ist gut" ∧
    score_sentence (fun _ => 0) "de" "das ist gut" ≤ 1 :=
  C5_score_sentence_bounds (fun _ => 0) (fun _ => by norm_num) "de" "das ist gut"

/-! ## C4: AI relevance filter -/

/-- The Boolean prefix test agrees with `List.IsPrefix`. -/
lemma isPrefixB_iff : ∀ k l : List Char, isPrefixB k l = true ↔ k <+: l
  | [], l => by simp [isPrefixB]
  | a :: as, [] => by simp [isPrefixB]
  | a :: as, b :: bs => by
    simp [isPrefixB, List.cons_prefix_cons, isPrefixB_iff as bs]

/-- The Boolean substring test agrees with `List.IsInfix`. -/
lemma isInfixB_iff : ∀ k l : List Char, isInfixB k l = true ↔ k <:+: l
  | k, [] => by simp [isInfixB, List.infix_nil, List.isEmpty_iff]
  | k, c :: rest => by
    simp [isInfixB, isPrefixB_iff, isInfixB_iff k rest, List.infix_cons_iff]

/-- C4: a sentence is kept as AI-relevant exactly when it has at least 20
characters and its lowercased form contains some keyword of the
language-appropriate set as a substring; membership in
`extract_ai_sentences` output is exactly a kept sentence of the split,
tagged and stripped; and the short keywords "ai"/"ki" do match inside
longer words. -/
theorem C4_ai_relevance :
    (∀ lang s : String,
      (!decide (s.length < MIN_SENTENCE_LEN) && sentence_mentions_ai s lang) = true ↔
        (20 ≤ s.length ∧ ∃ k ∈ (if startsWithB "de" lang then AI_KEYWORDS_DE
          else AI_KEYWORDS_EN), k.data <:+: (lowerStr s).data)) ∧
    (∀ detect splitSents text p,
      p ∈ extract_ai_sentences detect splitSents text ↔
        ∃ s ∈ splitSents text (detect text), 20 ≤ s.length ∧
          sentence_mentions_ai s (detect text) = true ∧
          p = (detect text, stripStr s)) ∧
    sentence_mentions_ai "They maintain high quality standards." "en" = true ∧
    sentence_mentions_ai "Der Kiosk hat heute morgen geöffnet." "de" = true := by
  refine ⟨?_, ?_, by decide, by decide⟩
  · intro lang s
    simp only [Bool.and_eq_true, Bool.not_eq_true', decide_eq_false_iff_not,
      Nat.not_lt, sentence_mentions_ai, List.any_eq_true, substrB, isInfixB_iff]
    constructor
    · rintro ⟨h1, k, hk, hinf⟩
      exact ⟨h1, k, by split_ifs at hk ⊢ <;> assumption, hinf⟩
    · rintro ⟨h1, k, hk, hinf⟩
      exact ⟨h1, k, by split_ifs at hk ⊢ <;> assumption, hinf⟩
  · intro detect splitSents text p
    simp only [extract_ai_sentences, List.mem_map, List.mem_filter,
      Bool.and_eq_true, Bool.not_eq_true', decide_eq_false_iff_not, Nat.not_lt,
      MIN_SENTENCE_LEN]
    constructor
    · rintro ⟨s, ⟨hs, hlen, hai⟩, rfl⟩
      exact ⟨s, hs, hlen, hai, rfl⟩
    · rintro ⟨s, hs, hlen, hai, rfl⟩
      exact ⟨s, ⟨hs, hlen, hai⟩, rfl⟩

/-! ## C8: releases with short or missing text are skipped -/

/-- A release is skipped by the pipeline body exactly when its materialized
text is shorter than 50 characters (a missing text has length 0). -/
lemma processRelease_none_iff (compound : String → ℚ) (detect : String → String)
    (splitSents : String → String → List String) (r : ReleaseItem) :
    processRelease compound detect splitSents r = none ↔
      (r.text.getD "").length < 50 := by
  simp only [processRelease]
  split_ifs with h
  · rcases (by simpa using h : r.text.getD "" = "" ∨ (r.text.getD "").length < 50) with h1 | h1
    · exact iff_of_true rfl (by rw [h1]; decide)
    · exact iff_of_true rfl h1
  · have h' : ¬ (r.text.getD "" = "" ∨ (r.text.getD "").length < 50) := by simpa using h
    push_neg at h'
    exact iff_of_false (by simp) (by omega)

/-- C8: the pipeline produces one output row per release whose
materialized text has at least 50 characters, and no row (and no error)
for a release whose text is absent or shorter than 50 characters. -/
theorem C8_short_text_skipped :
    ∀ (compound : String → ℚ) (detect : String → String)
      (splitSents : String → String → List String)
      (pdfExtract : String → Option String) (releases : List ReleaseItem),
    (run_pipeline compound detect splitSents pdfExtract releases).length =
      ((releases.map (ensure_text pdfExtract)).filter
        (fun r => decide (50 ≤ (r.text.getD "").length))).length ∧
    (∀ r : ReleaseItem,
      run_pipeline compound detect splitSents pdfExtract [r] = [] ↔
        ((ensure_text pdfExtract r).text.getD "").length < 50) ∧
    (∀ r : ReleaseItem,
      (run_pipeline compound detect splitSents pdfExtract [r]).length = 1 ↔
        50 ≤ ((ensure_text pdfExtract r).text.getD "").length) := by
  intro compound detect splitSents pdfExtract releases
  refine ⟨?_, ?_, ?_⟩
  · induction releases with
    | nil => rfl
    | cons r rest ih =>
      simp only [run_pipeline] at ih ⊢
      simp only [List.filterMap_cons, List.map_cons, List.filter_cons]
      by_cases h : ((ensure_text pdfExtract r).text.getD "").length < 50
      · rw [(processRelease_none_iff _ _ _ _).mpr h,
          if_neg (by simpa using (by omega :
            ¬ 50 ≤ ((ensure_text pdfExtract r).text.getD "").length))]
        exact ih
      · obtain ⟨row, hrow⟩ : ∃ row,
            processRelease compound detect splitSents (ensure_text pdfExtract r) = some row := by
          cases hcase : processRelease compound detect splitSents (ensure_text pdfExtract r) with
          | none => exact absurd ((processRelease_none_iff _ _ _ _).mp hcase) h
          | some row => exact ⟨row, rfl⟩
        rw [hrow, if_pos (by simpa using (by omega :
          50 ≤ ((ensure_text pdfExtract r).text.getD "").length))]
        simp only [List.length_cons, ih]
  · intro r
    simp only [run_pipeline, List.filterMap_cons, List.filterMap_nil]
    constructor
    · intro hempty
      cases hcase : processRelease compound detect splitSents (ensure_text pdfExtract r) with
      | none => exact (processRelease_none_iff _ _ _ _).mp hcase
      | some row => rw [hcase] at hempty; simp at hempty
    · intro h
      rw [(processRelease_none_iff _ _ _ _).mpr h]
  · intro r
    simp only [run_pipeline, List.filterMap_cons, List.filterMap_nil]
    constructor
    · intro hone
      by_contra h
      rw [(processRelease_none_iff _ _ _ _).mpr (by omega)] at hone
      simp at hone
    · intro h
      obtain ⟨row, hrow⟩ : ∃ row,
          processRelease compound detect splitSents (ensure_text pdfExtract r) = some row := by
        cases hcase : processRelease compound detect splitSents (ensure_text pdfExtract r) with
        | none =>
          have := (processRelease_none_iff _ _ _ _).mp hcase
          omega
        | some row => exact ⟨row, rfl⟩
      rw [hrow]
      rfl

/-! ## C7: example buckets -/

/-- The label returned by `label_from_score` is always one of the three
bucket keys. -/
lemma label_trichotomy (q : ℚ) :
    (label_from_score q).1 = "positive" ∨ (label_from_score q).1 = "neutral" ∨
    (label_from_score q).1 = "negative" := by
  unfold label_from_score
  split_ifs <;> simp

/-- A bucket other than the sentence's label is untouched. -/
lemma addExample_positive_other (e : Examples) (lbl sent : String)
    (h : lbl ≠ "positive") : (addExample e lbl sent).positive = e.positive := by
  simp [addExample, h, apply_ite Examples.positive]

/-- A bucket other than the sentence's label is untouched. -/
lemma addExample_neutral_other (e : Examples) (lbl sent : String)
    (h : lbl ≠ "neutral") : (addExample e lbl sent).neutral = e.neutral := by
  simp [addExample, h, apply_ite Examples.neutral]

/-- A bucket other than the sentence's label is untouched. -/
lemma addExample_negative_other (e : Examples) (lbl sent : String)
    (h : lbl ≠ "negative") : (addExample e lbl sent).negative = e.negative := by
  simp [addExample, h, apply_ite Examples.negative]

/-- Invariant of the sentence loop from an arbitrary accumulator: the
scores are appended in order, and each bucket extends by the matching
sentences up to its remaining capacity. -/
lemma sentLoop_go (compound : String → ℚ) :
    ∀ (sents : List (String × String)) (scores0 : List ℚ) (ex0 : Examples),
    (sents.foldl (sentStep compound) (scores0, ex0)).1 =
      scores0 ++ sents.map (fun p => score_sentence compound p.1 p.2) ∧
    (sents.foldl (sentStep compound) (scores0, ex0)).2.positive =
      ex0.positive ++ ((sents.filter (fun p =>
        decide ((label_from_score (score_sentence compound p.1 p.2)).1 = "positive"))).map
          Prod.snd).take (3 - ex0.positive.length) ∧
    (sents.foldl (sentStep compound) (scores0, ex0)).2.neutral =
      ex0.neutral ++ ((sents.filter (fun p =>
        decide ((label_from_score (score_sentence compound p.1 p.2)).1 = "neutral"))).map
          Prod.snd).take (3 - ex0.neutral.length) ∧
    (sents.foldl (sentStep compound) (scores0, ex0)).2.negative =
      ex0.negative ++ ((sents.filter (fun p =>
        decide ((label_from_score (score_sentence compound p.1 p.2)).1 = "negative"))).map
          Prod.snd).take (3 - ex0.negative.length) := by
  intro sents
  induction sents with
  | nil => intro scores0 ex0; simp
  | cons p rest ih =>
    intro scores0 ex0
    have hstep : sentStep compound (scores0, ex0) p =
        (scores0 ++ [score_sentence compound p.1 p.2],
          addExample ex0 (label_from_score (score_sentence compound p.1 p.2)).1 p.2) := rfl
    simp only [List.foldl_cons, hstep, List.map_cons, List.filter_cons]
    rcases label_trichotomy (score_sentence compound p.1 p.2) with hl | hl | hl <;>
      rw [hl] <;>
      obtain ⟨ih1, ih2, ih3, ih4⟩ :=
        ih (scores0 ++ [score_sentence compound p.1 p.2])
          (addExample ex0 (label_from_score (score_sentence compound p.1 p.2)).1 p.2) <;>
      rw [hl] at ih1 ih2 ih3 ih4
    · refine ⟨by simp [ih1], ?_, ?_, ?_⟩
      · rw [ih2, if_pos (by decide)]
        by_cases hlen : ex0.positive.length < 3
        · have haddp : (addExample ex0 "positive" p.2).positive = ex0.positive ++ [p.2] := by
            simp [addExample, hlen]
          rw [haddp]
          have h3 : 3 - ex0.positive.length = (3 - (ex0.positive.length + 1)) + 1 := by omega
          simp only [List.map_cons, List.length_append, List.length_singleton, h3,
            List.take_succ_cons]
          simp [List.append_assoc]
        · have haddp : (addExample ex0 "positive" p.2).positive = ex0.positive := by
            simp [addExample, hlen]
          rw [haddp]
          have h0 : 3 - ex0.positive.length = 0 := by omega
          simp [h0]
      · rw [ih3, if_neg (by decide)]
        have hadd : (addExample ex0 "positive" p.2).neutral = ex0.neutral :=
          addExample_neutral_other ex0 "positive" p.2 (by decide)
        rw [hadd]
      · rw [ih4, if_neg (by decide)]
        have hadd : (addExample ex0 "positive" p.2).negative = ex0.negative :=
          addExample_negative_other ex0 "positive" p.2 (by decide)
        rw [hadd]
    · refine ⟨by simp [ih1], ?_, ?_, ?_⟩
      · rw [ih2, if_neg (by decide)]
        have hadd : (addExample ex0 "neutral" p.2).positive = ex0.positive :=
          addExample_positive_other ex0 "neutral" p.2 (by decide)
        rw [hadd]
      · rw [ih3, if_pos (by decide)]
        by_cases hlen : ex0.neutral.length < 3
        · have haddp : (addExample ex0 "neutral" p.2).neutral = ex0.neutral ++ [p.2] := by
            simp [addExample, hlen]
          rw [haddp]
          have h3 : 3 - ex0.neutral.length = (3 - (ex0.neutral.length + 1)) + 1 := by omega
          simp only [List.map_cons, List.length_append, List.length_singleton, h3,
            List.take_succ_cons]
          simp [List.append_assoc]
        · have haddp : (addExample ex0 "neutral" p.2).neutral = ex0.neutral := by
            simp [addExample, hlen]
          rw [haddp]
          have h0 : 3 - ex0.neutral.length = 0 := by omega
          simp [h0]
      · rw [ih4, if_neg (by decide)]
        have hadd : (addExample ex0 "neutral" p.2).negative = ex0.negative :=
          addExample_negative_other ex0 "neutral" p.2 (by decide)
        rw [hadd]
    · refine ⟨by simp [ih1], ?_, ?_, ?_⟩
      · rw [ih2, if_neg (by decide)]
        have hadd : (addExample ex0 "negative" p.2).positive = ex0.positive :=
          addExample_positive_other ex0 "negative" p.2 (by decide)
        rw [hadd]
      · rw [ih3, if_neg (by decide)]
        have hadd : (addExample ex0 "negative" p.2).neutral = ex0.neutral :=
          addExample_neutral_other ex0 "negative" p.2 (by decide)
        rw [hadd]
      · rw [ih4, if_pos (by decide)]
        by_cases hlen : ex0.negative.length < 3
        · have haddp : (addExample ex0 "negative" p.2).negative = ex0.negative ++ [p.2] := by
            simp [addExample, hlen]
          rw [haddp]
          have h3 : 3 - ex0.negative.length = (3 - (ex0.negative.length + 1)) + 1 := by omega
          simp only [List.map_cons, List.length_append, List.length_singleton, h3,
            List.take_succ_cons]
          simp [List.append_assoc]
        · have haddp : (addExample ex0 "negative" p.2).negative = ex0.negative := by
            simp [addExample, hlen]
          rw [haddp]
          have h0 : 3 - ex0.negative.length = 0 := by omega
          simp [h0]

/-- C7: walking a release's AI sentences in order, each example bucket
collects exactly the first (at most) 3 sentence texts whose own label
matches the bucket, so buckets never exceed 3 entries and keep first-seen
order; in particular five positive sentences leave exactly the first
three in the positive bucket. -/
theorem C7_example_buckets :
    (∀ (compound : String → ℚ) (ai_sents : List (String × String)),
      (sentLoop compound ai_sents).2.positive =
        ((ai_sents.filter (fun p =>
          decide ((label_from_score (score_sentence compound p.1 p.2)).1 = "positive"))).map
            Prod.snd).take 3 ∧
      (sentLoop compound ai_sents).2.neutral =
        ((ai_sents.filter (fun p =>
          decide ((label_from_score (score_sentence compound p.1 p.2)).1 = "neutral"))).map
            Prod.snd).take 3 ∧
      (sentLoop compound ai_sents).2.negative =
        ((ai_sents.filter (fun p =>
          decide ((label_from_score (score_sentence compound p.1 p.2)).1 = "negative"))).map
            Prod.snd).take 3 ∧
      (sentLoop compound ai_sents).2.positive.length ≤ 3 ∧
      (sentLoop compound ai_sents).2.neutral.length ≤ 3 ∧
      (sentLoop compound ai_sents).2.negative.length ≤ 3 ∧
      (sentLoop compound ai_sents).1 =
        ai_sents.map (fun p => score_sentence compound p.1 p.2)) ∧
    (sentLoop (fun _ => 0)
      [("de", "erster satz ist gut"), ("de", "zweiter satz ist gut"),
       ("de", "dritter satz ist gut"), ("de", "vierter satz ist gut"),
       ("de", "fünfter satz ist gut")]).2.positive =
      ["erster satz ist gut", "zweiter satz ist gut", "dritter satz ist gut"] := by
  constructor
  · intro compound ai_sents
    obtain ⟨h1, h2, h3, h4⟩ := sentLoop_go compound ai_sents [] ⟨[], [], []⟩
    refine ⟨by simpa using h2, by simpa using h3, by simpa using h4, ?_, ?_, ?_, by simpa using h1⟩
    · rw [show (sentLoop compound ai_sents).2.positive =
        ((ai_sents.filter (fun p =>
          decide ((label_from_score (score_sentence compound p.1 p.2)).1 = "positive"))).map
            Prod.snd).take 3 from by simpa using h2]
      exact List.length_take_le 3 _
    · rw [show (sentLoop compound ai_sents).2.neutral =
        ((ai_sents.filter (fun p =>
          decide ((label_from_score (score_sentence compound p.1 p.2)).1 = "neutral"))).map
            Prod.snd).take 3 from by simpa using h3]
      exact List.length_take_le 3 _
    · rw [show (sentLoop compound ai_sents).2.negative =
        ((ai_sents.filter (fun p =>
          decide ((label_from_score (score_sentence compound p.1 p.2)).1 = "negative"))).map
            Prod.snd).take 3 from by simpa using h4]
      exact List.length_take_le 3 _
  · have key : ∀ sent : String, rawGermanScore (lowerStr sent) = 2 →
        (NEGATION_TOKENS.any (fun t => containsWord t (lowerStr sent))) = false →
        score_sentence (fun _ => (0 : ℚ)) "de" sent = 2/3 := by
      intro sent h1 h2
      have hsw : startsWithB "de" "de" = true := by decide
      simp only [score_sentence, hsw, if_true, h1, h2, Bool.false_eq_true, if_false]
      rw [if_pos (by norm_num : (0:ℚ) < 2)]
      rw [show (2 : ℚ) / 3 ⊓ 1 = 2/3 from min_eq_left (by norm_num)]
    have hs1 := key "erster satz ist gut" (by simp +decide [rawGermanScore, GERMAN_LEXICON]) (by decide)
    have hs2 := key "zweiter satz ist gut" (by simp +decide [rawGermanScore, GERMAN_LEXICON]) (by decide)
    have hs3 := key "dritter satz ist gut" (by simp +decide [rawGermanScore, GERMAN_LEXICON]) (by decide)
    have hs4 := key "vierter satz ist gut" (by simp +decide [rawGermanScore, GERMAN_LEXICON]) (by decide)
    have hs5 := key "fünfter satz ist gut" (by simp +decide [rawGermanScore, GERMAN_LEXICON]) (by decide)
    have hlbl : (label_from_score ((2:ℚ)/3)).1 = "positive" := by
      rw [label_from_score, if_pos (by norm_num [thresholdPositive])]
    simp only [sentLoop, List.foldl_cons, List.foldl_nil, sentStep, hs1, hs2, hs3,
      hs4, hs5, hlbl]
    simp [addExample]

/-! ## C2: German negation sign flip -/

/-- The lexicon summation loop equals the sum of the matched weights. -/
lemma foldl_add_filter (s : String) :
    ∀ (L : List (String × ℚ)) (a : ℚ),
    L.foldl (fun acc p => if containsWord p.1 s then acc + p.2 else acc) a =
      a + ((L.filter (fun p => containsWord p.1 s)).map Prod.snd).sum := by
  intro L
  induction L with
  | nil => intro a; simp
  | cons p rest ih =>
    intro a
    simp only [List.foldl_cons, List.filter_cons]
    by_cases h : containsWord p.1 s
    · rw [if_pos h, if_pos h, ih]
      simp [add_assoc]
    · rw [if_neg h, if_neg h, ih]

/-- Filtering an association list with distinct keys for one present key
keeps exactly that entry. -/
lemma filter_fst_eq (w : String) (val : ℚ) :
    ∀ L : List (String × ℚ), (L.map Prod.fst).Nodup → (w, val) ∈ L →
      L.filter (fun p => decide (p.1 = w)) = [(w, val)] := by
  intro L
  induction L with
  | nil => intro _ h; simp at h
  | cons q rest ih =>
    intro hnd hmem
    simp only [List.map_cons, List.nodup_cons] at hnd
    rcases List.mem_cons.mp hmem with h | h
    · subst h
      simp only [List.filter_cons, decide_eq_true_eq]
      rw [if_pos (by trivial)]
      have : rest.filter (fun p => decide (p.1 = w)) = [] := by
        refine List.filter_eq_nil_iff.mpr ?_
        intro p hp hkey
        exact hnd.1 (List.mem_map.mpr ⟨p, hp, by simpa using hkey⟩)
      rw [this]
    · have hne : q.1 ≠ w := by
        intro he
        exact hnd.1 (he ▸ List.mem_map.mpr ⟨(w, val), h, rfl⟩)
      simp only [List.filter_cons, decide_eq_true_eq]
      rw [if_neg hne]
      exact ih hnd.2 h

/-- When exactly one lexicon entry matches the lowercased sentence, the raw
German score is that entry's weight. -/
lemma rawGermanScore_single (s w : String) (val : ℚ)
    (hmem : (w, val) ∈ GERMAN_LEXICON)
    (hhits : ∀ p ∈ GERMAN_LEXICON, containsWord p.1 s = decide (p.1 = w)) :
    rawGermanScore s = val := by
  unfold rawGermanScore
  rw [foldl_add_filter, List.filter_congr hhits,
    filter_fst_eq w val GERMAN_LEXICON (by decide) hmem]
  simp

/-- C2: for a German sentence whose only lexicon hit is one positive term
of weight `val` and which contains a negation token, `score_sentence`
returns `-min(val/3, 1)`: the sign flip of the score of a sentence with
the same single hit and no negation token. -/
theorem C2_negation_sign_flip (compound : String → ℚ) (lang s s₂ w : String)
    (val : ℚ)
    (hlang : startsWithB "de" lang = true)
    (hmem : (w, val) ∈ GERMAN_LEXICON) (hval : 0 < val)
    (hhits : ∀ p ∈ GERMAN_LEXICON,
      containsWord p.1 (lowerStr s) = decide (p.1 = w))
    (hneg : NEGATION_TOKENS.any (fun t => containsWord t (lowerStr s)) = true)
    (hhits₂ : ∀ p ∈ GERMAN_LEXICON,
      containsWord p.1 (lowerStr s₂) = decide (p.1 = w))
    (hneg₂ : NEGATION_TOKENS.any (fun t => containsWord t (lowerStr s₂)) = false) :
    score_sentence compound lang s = -(min (val / 3) 1) ∧
    score_sentence compound lang s₂ = min (val / 3) 1 ∧
    score_sentence compound lang s = -(score_sentence compound lang s₂) := by
  have hraw : rawGermanScore (lowerStr s) = val :=
    rawGermanScore_single (lowerStr s) w val hmem hhits
  have hraw₂ : rawGermanScore (lowerStr s₂) = val :=
    rawGermanScore_single (lowerStr s₂) w val hmem hhits₂
  have h1 : score_sentence compound lang s = -(min (val / 3) 1) := by
    simp only [score_sentence, hlang, if_true, hraw, hneg]
    rw [if_neg (by linarith), if_pos (by linarith), neg_div, max_neg_neg]
  have h2 : score_sentence compound lang s₂ = min (val / 3) 1 := by
    simp only [score_sentence, hlang, if_true, hraw₂, hneg₂, Bool.false_eq_true,
      if_false]
    rw [if_pos hval]
  exact ⟨h1, h2, by rw [h1, h2]⟩

/-- Witness for C2: "das ist nicht gut" flips the sign of
"das ist gut" (single hit "gut" of weight 2). -/
theorem C2_negation_sign_flip_witness :
    score_sentence (fun _ => 0) "de" "das ist nicht gut" = -(min ((2:ℚ) / 3) 1) ∧
    score_sentence (fun _ => 0) "de" "das ist gut" = min ((2:ℚ) / 3) 1 ∧
    score_sentence (fun _ => 0) "de" "das ist nicht gut" =
      -(score_sentence (fun _ => 0) "de" "das ist gut") :=
  C2_negation_sign_flip (fun _ => 0) "de" "das ist nicht gut" "das ist gut" "gut" 2
    (by decide) (by simp [GERMAN_LEXICON]) (by norm_num)
    (by decide) (by decide) (by decide) (by decide)

/-! ## Leftmost-scan characterization -/

/-- Unfolding of `scanFind` on a cons cell. -/
lemma scanFind_cons {α : Type} (f : List Char → Option α) (c : Char)
    (rest : List Char) :
    scanFind f (c :: rest) =
      match f (c :: rest) with
      | some r => some r
      | none => scanFind f rest := rfl

/-- The scan fails exactly when the matcher fails at every suffix. -/
lemma scanFind_eq_none_iff {α : Type} (f : List Char → Option α) :
    ∀ cs : List Char, scanFind f cs = none ↔ ∀ i, f (cs.drop i) = none := by
  intro cs
  induction cs with
  | nil =>
    simp only [scanFind, List.drop_nil]
    exact ⟨fun h _ => h, fun h => h 0⟩
  | cons c rest ih =>
    rw [scanFind_cons]
    cases hf : f (c :: rest) with
    | some r =>
      refine iff_of_false (by simp) (fun h => ?_)
      have := h 0
      rw [List.drop_zero, hf] at this
      cases this
    | none =>
      rw [ih]
      constructor
      · intro h i
        cases i with
        | zero => simpa using hf
        | succ n => simpa using h n
      · intro h i
        simpa using h (i + 1)

/-- The scan succeeds with value `a` exactly when some suffix matches with
`a` and every earlier suffix fails: leftmost-match semantics. -/
lemma scanFind_eq_some_iff {α : Type} (f : List Char → Option α) (a : α) :
    ∀ cs : List Char, scanFind f cs = some a ↔
      ∃ i, f (cs.drop i) = some a ∧ ∀ j < i, f (cs.drop j) = none := by
  intro cs
  induction cs with
  | nil =>
    simp only [scanFind, List.drop_nil]
    constructor
    · intro h
      exact ⟨0, h, fun j hj => absurd hj (by omega)⟩
    · rintro ⟨i, h, -⟩
      exact h
  | cons c rest ih =>
    rw [scanFind_cons]
    cases hf : f (c :: rest) with
    | some r =>
      constructor
      · intro h
        refine ⟨0, ?_, fun j hj => absurd hj (by omega)⟩
        rw [List.drop_zero, hf]
        exact h
      · rintro ⟨i, hi, hprev⟩
        cases i with
        | zero =>
          rw [List.drop_zero, hf] at hi
          exact hi
        | succ n =>
          have := hprev 0 (by omega)
          rw [List.drop_zero, hf] at this
          cases this
    | none =>
      rw [ih]
      constructor
      · rintro ⟨i, hi, hprev⟩
        refine ⟨i + 1, by simpa using hi, fun j hj => ?_⟩
        cases j with
        | zero => simpa using hf
        | succ m => simpa using hprev m (by omega)
      · rintro ⟨i, hi, hprev⟩
        cases i with
        | zero =>
          rw [List.drop_zero, hf] at hi
          cases hi
        | succ n =>
          exact ⟨n, by simpa using hi, fun j hj => by simpa using hprev (j + 1) (by omega)⟩

/-! ## C10: year and month can come from unrelated date mentions -/

/-- C10: on "In 2021 we grew. Later 2023-09 happened." the returned year
2021 comes from the first `20\d\d` occurrence while the returned month 9
comes from the later `2023-09` mention of a different year: the (year,
month) pair mixes two unrelated date mentions. -/
theorem C10_mixed_year_month :
    find_date_in_text "In 2021 we grew. Later 2023-09 happened." =
      some ⟨2021, 9, 1⟩ ∧
    scanFind yearAt ("In 2021 we grew. Later 2023-09 happened.").data =
      some ['2', '0', '2', '1'] ∧
    scanFind m3At ("In 2021 we grew. Later 2023-09 happened.").data = some 9 ∧
    digitsVal ['2', '0', '2', '1'] = 2021 := by
  refine ⟨by decide, by decide, by decide, by decide⟩

/-! ## C3: date-in-text month resolution -/

/-- Leftmost scan also returning the index of the first success (used only
by the claim-side reference definition below). -/
def scanFindIdx {α : Type} (f : List Char → Option α) : List Char → Option (ℕ × α)
  | [] => (f []).map (fun a => (0, a))
  | c :: rest =>
    match f (c :: rest) with
    | some a => some (0, a)
    | none => (scanFindIdx f rest).map (fun p => (p.1 + 1, p.2))

/-- The date-in-text extraction as claim C3 states it (a reference
definition built from the claim's words, to compare with the source's
`find_date_in_text`): the month-name rule only looks at a month name
appearing immediately before the FIRST `20\d\d` occurrence (a maximal
letter run separated by whitespace), else falls to the `YYYY[sep]MM` rule,
else month 1. -/
def find_date_in_text_claimed (text : String) : Option SimpleDate :=
  let cs := text.data
  match scanFindIdx yearAt cs with
  | none => none
  | some (i, yds) =>
    let year := digitsVal yds
    let before := (cs.take i).reverse
    let ws := before.takeWhile isSpaceC
    let runRev := (before.dropWhile isSpaceC).takeWhile isLetterDE
    let monBefore : Option ℕ :=
      if ws.isEmpty || runRev.isEmpty then none
      else monthLookup (lowerStr ⟨runRev.reverse⟩)
    match monBefore with
    | some m => some ⟨year, m, 1⟩
    | none =>
      match scanFind m3At cs with
      | some mo =>
        if 1 ≤ mo && mo ≤ 12 then some ⟨year, mo, 1⟩ else some ⟨year, 1, 1⟩
      | none => some ⟨year, 1, 1⟩

/-- Counterexample to C3 as stated: in "2023 und Dezember 2023" no month
name precedes the first year occurrence and no `YYYY[sep]MM` pattern
occurs, so the claim's rule yields month 1, but the code returns month 12:
its month-name search binds to the second occurrence of the same year
digits. -/
theorem C3_counterexample :
    find_date_in_text "2023 und Dezember 2023" = some ⟨2023, 12, 1⟩ ∧
    find_date_in_text_claimed "2023 und Dezember 2023" = some ⟨2023, 1, 1⟩ ∧
    find_date_in_text "2023 und Dezember 2023" ≠
      find_date_in_text_claimed "2023 und Dezember 2023" := by
  refine ⟨by decide, by decide, by decide⟩

/-- Shape of a successful `20\d\d` match. -/
lemma yearAt_some_shape {cs yds : List Char} (h : yearAt cs = some yds) :
    ∃ a b, isDigitB a = true ∧ isDigitB b = true ∧ yds = ['2', '0', a, b] := by
  rcases cs with _ | ⟨c1, _ | ⟨c2, _ | ⟨a, _ | ⟨b, rest⟩⟩⟩⟩
  · exact absurd h (by simp [yearAt])
  · exact absurd h (by simp [yearAt])
  · exact absurd h (by simp [yearAt])
  · exact absurd h (by simp [yearAt])
  · simp only [yearAt] at h
    split_ifs at h with hc
    simp only [Bool.and_eq_true, decide_eq_true_eq] at hc
    obtain ⟨⟨⟨h1, h2⟩, ha⟩, hb⟩ := hc
    subst h1; subst h2
    exact ⟨a, b, ha, hb, by simpa using h.symm⟩

/-- Value range of the year digits. -/
lemma digitsVal_year_range {a b : Char} (ha : isDigitB a = true)
    (hb : isDigitB b = true) :
    2000 ≤ digitsVal ['2', '0', a, b] ∧ digitsVal ['2', '0', a, b] ≤ 2099 := by
  simp only [isDigitB, Bool.and_eq_true, decide_eq_true_eq] at ha hb
  have h2 : ('2' : Char).toNat = 50 := by decide
  have h0 : ('0' : Char).toNat = 48 := by decide
  simp only [digitsVal, List.foldl_cons, List.foldl_nil, dval, h2, h0]
  omega

/-- Every month number in a lookup table bounded by [1, 12] stays in
[1, 12]. -/
lemma lookup_range : ∀ (l : List (String × ℕ)),
    (∀ p ∈ l, 1 ≤ p.2 ∧ p.2 ≤ 12) →
    ∀ mon m, l.lookup mon = some m → 1 ≤ m ∧ m ≤ 12 := by
  intro l
  induction l with
  | nil => intro _ mon m h; simp at h
  | cons q rest ih =>
    intro hb mon m h
    rcases q with ⟨k, v⟩
    rw [List.lookup] at h
    cases hbe : (mon == k) <;> simp only [hbe] at h
    · exact ih (fun p hp => hb p (List.mem_cons_of_mem _ hp)) mon m h
    · cases h
      exact hb (k, m) (by simp)

/-- A successful month-name lookup yields a month in [1, 12]. -/
lemma monthLookup_range (mon : String) (m : ℕ) (h : monthLookup mon = some m) :
    1 ≤ m ∧ m ≤ 12 := by
  unfold monthLookup at h
  rcases he : MONTHS_EN.lookup mon with _ | v <;> rw [he] at h <;> simp at h
  · exact lookup_range MONTHS_DE (by decide) mon m h
  · subst h
    exact lookup_range MONTHS_EN (by decide) mon v he

/-- When the year search succeeds, the extraction returns a date. -/
lemma find_date_isSome_of_year (text : String) (yds : List Char)
    (hy : scanFind yearAt text.data = some yds) :
    ∃ d, find_date_in_text text = some d := by
  simp only [find_date_in_text]
  rw [hy]
  dsimp only
  rcases hmon : monthFromName yds text.data with _ | m <;> dsimp only
  · rcases hm3 : scanFind m3At text.data with _ | mo <;> dsimp only
    · exact ⟨_, rfl⟩
    · split_ifs <;> exact ⟨_, rfl⟩
  · exact ⟨_, rfl⟩

/-- The source's date-in-text extraction fails exactly when the first
`20\d\d` search fails. -/
lemma find_date_in_text_eq_none_iff (text : String) :
    find_date_in_text text = none ↔ scanFind yearAt text.data = none := by
  constructor
  · intro h
    rcases hy : scanFind yearAt text.data with _ | yds
    · rfl
    · obtain ⟨d, hdm⟩ := find_date_isSome_of_year text yds hy
      rw [hdm] at h
      cases h
  · intro h
    simp only [find_date_in_text]
    rw [h]

/-- C3 amended: the year is the value of the leftmost `20\d\d` match and
the result is `none` exactly when there is none; the returned day is 1 and
the month lies in [1, 12]; the month comes from the leftmost
letters+whitespace+«the same year digits» match anywhere in the text when
that match's letter run (lowercased) is a month name — even when that
match sits at a later occurrence of the year digits than the first one —
else from the leftmost `20\d{2}[.\-\/]\d{1,2}` match (with months outside
[1, 12] replaced by 1), else it defaults to 1. -/
theorem C3_find_date_in_text_amended : ∀ text : String,
    (find_date_in_text text = none ↔ ∀ i, yearAt (text.data.drop i) = none) ∧
    (∀ d, find_date_in_text text = some d →
      d.day = 1 ∧ 2000 ≤ d.year ∧ d.year ≤ 2099 ∧ 1 ≤ d.month ∧ d.month ≤ 12 ∧
      ∃ i yds, yearAt (text.data.drop i) = some yds ∧
        (∀ j < i, yearAt (text.data.drop j) = none) ∧ d.year = digitsVal yds ∧
        ((∃ k run, m2At yds (text.data.drop k) = some run ∧
            (∀ j < k, m2At yds (text.data.drop j) = none) ∧
            monthLookup (lowerStr ⟨run⟩) = some d.month) ∨
         ((∀ k run, (m2At yds (text.data.drop k) = some run ∧
              ∀ j < k, m2At yds (text.data.drop j) = none) →
            monthLookup (lowerStr ⟨run⟩) = none) ∧
          ((∃ k mo, m3At (text.data.drop k) = some mo ∧
              (∀ j < k, m3At (text.data.drop j) = none) ∧
              d.month = if 1 ≤ mo ∧ mo ≤ 12 then mo else 1) ∨
           ((∀ k, m3At (text.data.drop k) = none) ∧ d.month = 1))))) := by
  intro text
  constructor
  · rw [find_date_in_text_eq_none_iff]
    exact scanFind_eq_none_iff yearAt text.data
  · intro d hd
    simp only [find_date_in_text] at hd
    rcases hy : scanFind yearAt text.data with _ | yds
    · rw [hy] at hd
      cases hd
    · rw [hy] at hd
      dsimp only at hd
      obtain ⟨i, hi, hprev⟩ := (scanFind_eq_some_iff yearAt yds text.data).mp hy
      obtain ⟨a, b, ha, hb, hydseq⟩ := yearAt_some_shape hi
      have hyr := digitsVal_year_range ha hb
      rw [← hydseq] at hyr
      rcases hmon : monthFromName yds text.data with _ | m <;> rw [hmon] at hd <;>
        dsimp only at hd
      · -- month-name stage failed: either no m2 match, or its run is no month
        have hfirst : ∀ k run, (m2At yds (text.data.drop k) = some run ∧
            ∀ j < k, m2At yds (text.data.drop j) = none) →
            monthLookup (lowerStr ⟨run⟩) = none := by
          intro k run ⟨hk, hkprev⟩
          rcases hm2 : scanFind (m2At yds) text.data with _ | run₀
          · rw [(scanFind_eq_none_iff (m2At yds) text.data).mp hm2 k] at hk
            cases hk
          · obtain ⟨k2, hk2, hk2prev⟩ :=
              (scanFind_eq_some_iff (m2At yds) run₀ text.data).mp hm2
            have hkk : k = k2 := by
              by_contra hne
              rcases Nat.lt_or_ge k k2 with hlt | hge
              · rw [hk2prev k hlt] at hk; cases hk
              · have hlt2 : k2 < k := by omega
                rw [hkprev k2 hlt2] at hk2; cases hk2
            subst hkk
            rw [hk] at hk2
            injection hk2 with he
            subst he
            have hthis := hmon
            simp only [monthFromName, hm2] at hthis
            exact hthis
        rcases hm3 : scanFind m3At text.data with _ | mo <;> rw [hm3] at hd <;>
          dsimp only at hd
        · cases hd
          exact ⟨rfl, hyr.1, hyr.2, by norm_num, by norm_num, i, yds, hi, hprev,
            rfl, Or.inr ⟨hfirst, Or.inr
              ⟨(scanFind_eq_none_iff m3At text.data).mp hm3, rfl⟩⟩⟩
        · obtain ⟨k3, hk3, hk3prev⟩ :=
            (scanFind_eq_some_iff m3At mo text.data).mp hm3
          by_cases hmo : 1 ≤ mo ∧ mo ≤ 12
          · rw [if_pos (by simpa using hmo)] at hd
            cases hd
            exact ⟨rfl, hyr.1, hyr.2, by simpa using hmo.1, by simpa using hmo.2,
              i, yds, hi, hprev, rfl,
              Or.inr ⟨hfirst, Or.inl ⟨k3, mo, hk3, hk3prev, by rw [if_pos hmo]⟩⟩⟩
          · rw [if_neg (by simpa using hmo)] at hd
            cases hd
            exact ⟨rfl, hyr.1, hyr.2, by norm_num, by norm_num, i, yds, hi, hprev,
              rfl,
              Or.inr ⟨hfirst, Or.inl ⟨k3, mo, hk3, hk3prev, by rw [if_neg hmo]⟩⟩⟩
      · -- month-name stage succeeded
        cases hd
        have hm2some : ∃ run, scanFind (m2At yds) text.data = some run ∧
            monthLookup (lowerStr ⟨run⟩) = some m := by
          have hthis := hmon
          rcases hm2 : scanFind (m2At yds) text.data with _ | run <;>
            simp only [monthFromName, hm2] at hthis
          · cases hthis
          · exact ⟨run, rfl, hthis⟩
        obtain ⟨run, hm2, hlook⟩ := hm2some
        obtain ⟨k2, hk2, hk2prev⟩ :=
          (scanFind_eq_some_iff (m2At yds) run text.data).mp hm2
        have hm := monthLookup_range _ _ hlook
        exact ⟨rfl, hyr.1, hyr.2, by simpa using hm.1, by simpa using hm.2,
          i, yds, hi, hprev, rfl, Or.inl ⟨k2, run, hk2, hk2prev, hlook⟩⟩

/-! ## C9: explicit date-string parsing -/

/-- The canonical ISO 8601 rendering `YYYY-MM-DD` of a date, used to state
the round-trip property. -/
def isoRender (y m d : ℕ) : String :=
  ⟨[digitChar (y / 1000), digitChar (y / 100 % 10), digitChar (y / 10 % 10),
    digitChar (y % 10), '-', digitChar (m / 10), digitChar (m % 10), '-',
    digitChar (d / 10), digitChar (d % 10)]⟩

/-- Digit characters round-trip through `dval`. -/
lemma dval_digitChar {n : ℕ} (h : n ≤ 9) : dval (digitChar n) = n := by
  interval_cases n <;> decide

/-- Digit characters are digits. -/
lemma isDigitB_digitChar {n : ℕ} (h : n ≤ 9) : isDigitB (digitChar n) = true := by
  interval_cases n <;> decide

/-- Digit characters are not whitespace. -/
lemma not_space_digitChar {n : ℕ} (h : n ≤ 9) :
    isSpaceC (digitChar n) = false := by
  interval_cases n <;> decide

/-- No month has more than 31 days. -/
lemma daysInMonth_le_31 (y m : ℕ) : daysInMonth y m ≤ 31 := by
  unfold daysInMonth
  split_ifs <;> omega

/-- Stripping leaves the ISO rendering unchanged (its first and last
characters are digits). -/
lemma stripStr_isoRender (y m d : ℕ) (hy : y ≤ 9999) :
    stripStr (isoRender y m d) = isoRender y m d := by
  have h1 : isSpaceC (digitChar (y / 1000)) = false :=
    not_space_digitChar (by omega)
  have h2 : isSpaceC (digitChar (d % 10)) = false :=
    not_space_digitChar (by omega)
  simp [stripStr, isoRender, h1, h2]

/-- The strict ISO parse inverts the ISO rendering of a valid date. -/
lemma fromisoformat_isoRender (y m d : ℕ) (hy1 : 1 ≤ y) (hy2 : y ≤ 9999)
    (hm1 : 1 ≤ m) (hm2 : m ≤ 12) (hd1 : 1 ≤ d) (hd2 : d ≤ daysInMonth y m) :
    fromisoformat (isoRender y m d) = some ⟨y, m, d⟩ := by
  have hd31 : d ≤ 31 := le_trans hd2 (daysInMonth_le_31 y m)
  have e1 : isDigitB (digitChar (y / 1000)) = true := isDigitB_digitChar (by omega)
  have e2 : isDigitB (digitChar (y / 100 % 10)) = true := isDigitB_digitChar (by omega)
  have e3 : isDigitB (digitChar (y / 10 % 10)) = true := isDigitB_digitChar (by omega)
  have e4 : isDigitB (digitChar (y % 10)) = true := isDigitB_digitChar (by omega)
  have e5 : isDigitB (digitChar (m / 10)) = true := isDigitB_digitChar (by omega)
  have e6 : isDigitB (digitChar (m % 10)) = true := isDigitB_digitChar (by omega)
  have e7 : isDigitB (digitChar (d / 10)) = true := isDigitB_digitChar (by omega)
  have e8 : isDigitB (digitChar (d % 10)) = true := isDigitB_digitChar (by omega)
  have hyval : digitsVal [digitChar (y / 1000), digitChar (y / 100 % 10),
      digitChar (y / 10 % 10), digitChar (y % 10)] = y := by
    simp only [digitsVal, List.foldl_cons, List.foldl_nil,
      dval_digitChar (show y / 1000 ≤ 9 by omega),
      dval_digitChar (show y / 100 % 10 ≤ 9 by omega),
      dval_digitChar (show y / 10 % 10 ≤ 9 by omega),
      dval_digitChar (show y % 10 ≤ 9 by omega)]
    omega
  have hmval : 10 * dval (digitChar (m / 10)) + dval (digitChar (m % 10)) = m := by
    rw [dval_digitChar (show m / 10 ≤ 9 by omega),
      dval_digitChar (show m % 10 ≤ 9 by omega)]
    omega
  have hdval : 10 * dval (digitChar (d / 10)) + dval (digitChar (d % 10)) = d := by
    rw [dval_digitChar (show d / 10 ≤ 9 by omega),
      dval_digitChar (show d % 10 ≤ 9 by omega)]
    omega
  simp only [fromisoformat, isoRender]
  rw [if_pos (by simp [e1, e2, e3, e4, e5, e6, e7, e8])]
  rw [hyval, hmval, hdval]
  have hcond : ((((1 ≤ y ∧ y ≤ 9999) ∧ 1 ≤ m) ∧ m ≤ 12) ∧ 1 ≤ d) ∧
      d ≤ daysInMonth y m := ⟨⟨⟨⟨⟨hy1, hy2⟩, hm1⟩, hm2⟩, hd1⟩, hd2⟩
  rw [if_pos (by simp only [Bool.and_eq_true, decide_eq_true_eq]; exact hcond)]

/-- C9: `_parse_date_string` round-trips every valid ISO date string to the
date it denotes; it tries strict ISO, then `YYYY[sep]MM[sep]DD`, then
`D Month YYYY`, then `Month D, YYYY`, in that order with the first success
winning; and it returns `None` exactly when all four attempts fail. -/
theorem C9_parse_date_string_spec (y m d : ℕ) (hy1 : 1 ≤ y) (hy2 : y ≤ 9999)
    (hm1 : 1 ≤ m) (hm2 : m ≤ 12) (hd1 : 1 ≤ d) (hd2 : d ≤ daysInMonth y m) :
    parse_date_string (isoRender y m d) = some ⟨y, m, d⟩ ∧
    (∀ (s : String) (dd : SimpleDate), fromisoformat (stripStr s) = some dd →
      parse_date_string s = some dd) ∧
    (∀ (s : String) (dd : SimpleDate), fromisoformat (stripStr s) = none →
      tryPatternB (stripStr s).data = some dd → parse_date_string s = some dd) ∧
    (∀ (s : String) (dd : SimpleDate), fromisoformat (stripStr s) = none →
      tryPatternB (stripStr s).data = none →
      tryPatternC (stripStr s).data = some dd → parse_date_string s = some dd) ∧
    (∀ s : String, fromisoformat (stripStr s) = none →
      tryPatternB (stripStr s).data = none →
      tryPatternC (stripStr s).data = none →
      parse_date_string s = tryPatternD (stripStr s).data) ∧
    (∀ s : String, parse_date_string s = none ↔
      (fromisoformat (stripStr s) = none ∧ tryPatternB (stripStr s).data = none ∧
       tryPatternC (stripStr s).data = none ∧
       tryPatternD (stripStr s).data = none)) := by
  have horder2 : ∀ (s : String) (dd : SimpleDate),
      fromisoformat (stripStr s) = some dd → parse_date_string s = some dd := by
    intro s dd h
    simp only [parse_date_string]
    rw [h]
  have horder3 : ∀ (s : String) (dd : SimpleDate),
      fromisoformat (stripStr s) = none → tryPatternB (stripStr s).data = some dd →
      parse_date_string s = some dd := by
    intro s dd h1 h2
    simp only [parse_date_string]
    rw [h1]
    dsimp only
    rw [h2]
  have horder4 : ∀ (s : String) (dd : SimpleDate),
      fromisoformat (stripStr s) = none → tryPatternB (stripStr s).data = none →
      tryPatternC (stripStr s).data = some dd → parse_date_string s = some dd := by
    intro s dd h1 h2 h3
    simp only [parse_date_string]
    rw [h1]
    dsimp only
    rw [h2]
    dsimp only
    rw [h3]
  have horder5 : ∀ s : String,
      fromisoformat (stripStr s) = none → tryPatternB (stripStr s).data = none →
      tryPatternC (stripStr s).data = none →
      parse_date_string s = tryPatternD (stripStr s).data := by
    intro s h1 h2 h3
    simp only [parse_date_string]
    rw [h1]
    dsimp only
    rw [h2]
    dsimp only
    rw [h3]
  refine ⟨?_, horder2, horder3, horder4, horder5, ?_⟩
  · have hiso := fromisoformat_isoRender y m d hy1 hy2 hm1 hm2 hd1 hd2
    have hstrip := stripStr_isoRender y m d hy2
    exact horder2 (isoRender y m d) ⟨y, m, d⟩ (by rw [hstrip, hiso])
  · intro s
    constructor
    · intro h
      rcases h1 : fromisoformat (stripStr s) with _ | d1
      · rcases h2 : tryPatternB (stripStr s).data with _ | d2
        · rcases h3 : tryPatternC (stripStr s).data with _ | d3
          · refine ⟨rfl, rfl, rfl, ?_⟩
            rw [← horder5 s h1 h2 h3]
            exact h
          · rw [horder4 s d3 h1 h2 h3] at h
            cases h
        · rw [horder3 s d2 h1 h2] at h
          cases h
      · rw [horder2 s d1 h1] at h
        cases h
    · rintro ⟨h1, h2, h3, h4⟩
      rw [horder5 s h1 h2 h3, h4]

/-- Witness for C9 at the concrete date 2023-09-14. -/
theorem C9_parse_date_string_spec_witness :
    parse_date_string (isoRender 2023 9 14) = some ⟨2023, 9, 14⟩ :=
  (C9_parse_date_string_spec 2023 9 14 (by norm_num) (by norm_num) (by norm_num)
    (by norm_num) (by norm_num) (by decide)).1

end PressRelease
